import Mathlib

/-!
# Verification of the receipt-processor core

Shallow embedding of `internal/handlers/handlers.go` and
`internal/models/receipt.go` from saurabhag23/receipt-processor:
the validator, the seven-rule scoring engine and the in-memory result
store, together with models of the pieces of the Go standard library the
handlers call (`strconv.ParseFloat`, `time.Parse` with layouts
`"2006-01-02"` and `"15:04"`, `strings.TrimSpace`, `strings.HasSuffix`,
`math.Ceil`, float-to-int conversion).

Monetary strings flow through Go `float64` arithmetic in the source, so
the model includes an exact embedding of IEEE binary64
round-to-nearest-even.  A finite float64 value is represented by a pair
`(m, e) : ℤ × ℤ` denoting `m * 2 ^ e`; all computations are on integers
so that concrete receipts evaluate by `decide`.
-/

set_option exponentiation.threshold 5000
set_option maxRecDepth 20000

namespace ReceiptProc

/-! ## IEEE binary64 model -/

/-- Fuel-driven base-2 logarithm on ℕ (fuel version of `Nat.log 2`). -/
def log2Aux : ℕ → ℕ → ℕ
  | 0, _ => 0
  | fuel + 1, n => if n < 2 then 0 else log2Aux fuel (n / 2) + 1

/-- Base-2 logarithm of a natural number, kernel-reducible. -/
def natLog2 (n : ℕ) : ℕ := log2Aux n n

/-- Decide `2 ^ e ≤ a / b` for naturals `a b ≥ 1` and an integer exponent. -/
def pow2LE (e : ℤ) (a b : ℕ) : Bool :=
  if 0 ≤ e then decide (b * 2 ^ e.toNat ≤ a) else decide (b ≤ a * 2 ^ (-e).toNat)

/-- Largest `e : ℤ` with `2 ^ e ≤ a / b`, for `a b ≥ 1`. -/
def floorLog2 (a b : ℕ) : ℤ :=
  let e0 : ℤ := (natLog2 a : ℤ) - (natLog2 b : ℤ)
  if pow2LE e0 a b then e0 else e0 - 1

/-- Round `num / den` to the nearest natural number, ties to even. -/
def roundHalfEven (num den : ℕ) : ℕ :=
  let q := num / den
  let r := num % den
  if 2 * r < den then q
  else if den < 2 * r then q + 1
  else if q % 2 = 0 then q else q + 1

/-- Round the positive rational `(a / b) * 2 ^ off` (with `a, b ≥ 1`) to 53
    significant bits, nearest-even: result `(m, e)` denotes `m * 2 ^ e`
    with `2 ^ 52 ≤ m ≤ 2 ^ 53`.  Unbounded exponent; callers handle
    overflow.  (Subnormal granularity is not modelled: every value in
    this development is far from `2 ^ (-1022)`.) -/
def flFrac (a b : ℕ) (off : ℤ) : ℤ × ℤ :=
  let l : ℤ := floorLog2 a b
  let s : ℤ := 52 - l
  let num : ℕ := if 0 ≤ s then a * 2 ^ s.toNat else a
  let den : ℕ := if 0 ≤ s then b else b * 2 ^ (-s).toNat
  ((roundHalfEven num den : ℤ), l + off - 52)

/-- A Go `float64` value: finite `m * 2 ^ e`, an infinity, or NaN.
    Finite values built by this model are normalised
    (`2 ^ 52 ≤ |m| ≤ 2 ^ 53`, or `m = 0 ∧ e = 0`), so structural equality
    coincides with value equality. -/
inductive GoFloat where
  | finite (m : ℤ) (e : ℤ)
  | inf
  | negInf
  | nan
  deriving DecidableEq

/-- `|m * 2 ^ e| > maxFloat64 = (2 ^ 53 - 1) * 2 ^ 971`? -/
def dyOverflows (m e : ℤ) : Bool :=
  let am := m.natAbs
  if 971 ≤ e then decide ((2 ^ 53 - 1 : ℕ) < am * 2 ^ (e - 971).toNat)
  else decide ((2 ^ 53 - 1 : ℕ) * 2 ^ (971 - e).toNat < am)

/-- Round the signed exact value `sign * (a / b) * 2 ^ off` into a
    `float64`, overflowing to an infinity exactly when the
    unbounded-exponent rounding exceeds the largest finite value (the
    IEEE overflow rule). -/
def flSigned (neg : Bool) (a b : ℕ) (off : ℤ) : GoFloat :=
  if a = 0 then .finite 0 0
  else
    let (m, e) := flFrac a b off
    if dyOverflows m e then (if neg then .negInf else .inf)
    else .finite (if neg then -m else m) e

/-- The exact rational value of a finite float, for specification use. -/
def dyVal (m e : ℤ) : ℚ := (m : ℚ) * (2 : ℚ) ^ e

/-- The largest finite binary64 value, as a rational (specification
    side; `dyOverflows` is its integer-computable counterpart). -/
def maxF64Q : ℚ := ((2 : ℚ) ^ 53 - 1) * (2 : ℚ) ^ (971 : ℤ)

/-- IEEE multiplication of two `float64` values (Go `*`). -/
def goMul : GoFloat → GoFloat → GoFloat
  | .nan, _ => .nan
  | _, .nan => .nan
  | .finite m1 e1, .finite m2 e2 =>
      if m1 = 0 || m2 = 0 then .finite 0 0
      else flSigned (decide (m1 * m2 < 0)) (m1 * m2).natAbs 1 (e1 + e2)
  | .inf, .finite m _ => if m = 0 then .nan else if 0 < m then .inf else .negInf
  | .finite m _, .inf => if m = 0 then .nan else if 0 < m then .inf else .negInf
  | .negInf, .finite m _ => if m = 0 then .nan else if 0 < m then .negInf else .inf
  | .finite m _, .negInf => if m = 0 then .nan else if 0 < m then .negInf else .inf
  | .inf, .inf => .inf
  | .inf, .negInf => .negInf
  | .negInf, .inf => .negInf
  | .negInf, .negInf => .inf

/-- `math.Ceil` on a `float64`: exact for finite values (the ceiling of a
    representable value is representable), identity on infinities, NaN on
    NaN. -/
def goCeil : GoFloat → GoFloat
  | .finite m e =>
      if 0 ≤ e then .finite m e
      else
        let k := (-e).toNat
        let n : ℤ := -((-m).fdiv (2 ^ k))
        if n = 0 then .finite 0 0 else flSigned (decide (n < 0)) n.natAbs 1 0
  | .inf => .inf
  | .negInf => .negInf
  | .nan => .nan

/-- Truncation of the exact value `m * 2 ^ e` toward zero. -/
def dyTrunc (m e : ℤ) : ℤ :=
  if 0 ≤ e then m * 2 ^ e.toNat else m.tdiv (2 ^ (-e).toNat)

/-- Go conversion `int(f)` of a `float64` to a 64-bit integer, with the
    gc/amd64 behaviour on out-of-range values: results outside
    `[-2 ^ 63, 2 ^ 63 - 1]`, infinities and NaN all convert to `-2 ^ 63`
    (the x86 integer-indefinite value; the Go spec leaves this
    implementation-defined). -/
def goIntOfFloat : GoFloat → ℤ
  | .finite m e =>
      let t := dyTrunc m e
      if -2 ^ 63 ≤ t ∧ t ≤ 2 ^ 63 - 1 then t else -2 ^ 63
  | _ => -2 ^ 63

/-- Two's-complement wraparound of Go `int` (64-bit) addition. -/
def wrap64 (z : ℤ) : ℤ := (z + 2 ^ 63) % 2 ^ 64 - 2 ^ 63

/-! ## Characters and strings

Go strings are modelled as `List Char` (one entry per rune; the handlers
only ever inspect runes or UTF-8 byte lengths). -/

def isDigitChar (c : Char) : Bool := '0' ≤ c && c ≤ '9'

def digitVal (c : Char) : ℕ := c.toNat - '0'.toNat

/-- Go regexp `\w` = `[0-9A-Za-z_]`. -/
def isWordChar (c : Char) : Bool :=
  isDigitChar c || ('a' ≤ c && c ≤ 'z') || ('A' ≤ c && c ≤ 'Z') || c = '_'

/-- Go regexp (RE2) `\s` = `[\t\n\f\r ]`. -/
def isRegexSpace (c : Char) : Bool :=
  c = '\t' || c = '\n' || c = '\x0C' || c = '\r' || c = ' '

/-- `regexp.MustCompile` pattern `^[\w\s\-&]+$` (retailer, handlers.go). -/
def matchesRetailer (l : List Char) : Bool :=
  !l.isEmpty && l.all fun c => isWordChar c || isRegexSpace c || c = '-' || c = '&'

/-- Pattern `^[\w\s\-]+$` (item short description, handlers.go). -/
def matchesDesc (l : List Char) : Bool :=
  !l.isEmpty && l.all fun c => isWordChar c || isRegexSpace c || c = '-'

/-- Pattern `^\d+\.\d{2}$` (total and item price, handlers.go). -/
def matchesMoney (l : List Char) : Bool :=
  let ds := l.takeWhile isDigitChar
  let rest := l.dropWhile isDigitChar
  !ds.isEmpty &&
    match rest with
    | [c, d1, d2] => c = '.' && isDigitChar d1 && isDigitChar d2
    | _ => false

/-- Value of a string of decimal digits. -/
def digitsToNat (l : List Char) : ℕ := l.foldl (fun acc c => 10 * acc + digitVal c) 0

/-- The exact cent value of a `\d+\.\d{2}` string (specification side:
    the digits with the dot removed, read in base 10). -/
def moneyCents (l : List Char) : ℕ := digitsToNat (l.filter (· != '.'))

/-- UTF-8 byte count of a character (Go `len` counts bytes). -/
def utf8Len (c : Char) : ℕ :=
  if c.toNat < 0x80 then 1 else if c.toNat < 0x800 then 2
  else if c.toNat < 0x10000 then 3 else 4

/-- Go `len(s)` for a string: its UTF-8 byte count. -/
def goLen (l : List Char) : ℕ := (l.map utf8Len).sum

/-- Go `unicode.IsSpace`: the Unicode White_Space code points. -/
def isUnicodeSpace (c : Char) : Bool :=
  c = ' ' || ('\t' ≤ c && c ≤ '\r') || c = '\x85' || c = '\xA0' ||
  c = '\u1680' || ('\u2000' ≤ c && c ≤ '\u200A') || c = '\u2028' ||
  c = '\u2029' || c = '\u202F' || c = '\u205F' || c = '\u3000'

/-- Go `strings.TrimSpace`. -/
def goTrimSpace (l : List Char) : List Char :=
  ((l.dropWhile isUnicodeSpace).reverse.dropWhile isUnicodeSpace).reverse

/-- Go `strings.HasSuffix`. -/
def goHasSuffix (l tail : List Char) : Bool := tail.isSuffixOf l

/-- `countAlphanumeric` (handlers.go): runes in `a-z`, `A-Z`, `0-9`. -/
def countAlphanumeric (l : List Char) : ℕ :=
  (l.filter fun c =>
    ('a' ≤ c && c ≤ 'z') || ('A' ≤ c && c ≤ 'Z') || ('0' ≤ c && c ≤ '9')).length

/-! ## Go `strconv.ParseFloat` -/

/-- Outcome of `strconv.ParseFloat`: success, a syntax error, or a range
    (overflow) error.  The Go call returns `(0, err)` on a syntax error
    and `(±Inf, err)` on overflow. -/
inductive ParseErr where
  | ok
  | malformed
  | outOfRange
  deriving DecidableEq

/-- ASCII lower-casing, for the `inf` / `nan` spellings. -/
def lowerChar (c : Char) : Char :=
  if 'A' ≤ c && c ≤ 'Z' then Char.ofNat (c.toNat + 32) else c

/-- Convert a parsed decimal `sign * mant * 10 ^ e10` into the
    `ParseFloat` result: correctly rounded binary64, overflowing to
    `±Inf` with a range error. -/
def convDecimal (neg : Bool) (mant : ℕ) (e10 : ℤ) : GoFloat × ParseErr :=
  let v :=
    if 0 ≤ e10 then flSigned neg (mant * 10 ^ e10.toNat) 1 0
    else flSigned neg mant (10 ^ (-e10).toNat) 0
  match v with
  | .inf => (.inf, .outOfRange)
  | .negInf => (.negInf, .outOfRange)
  | f => (f, .ok)

/-- Modelled from Go `strconv.ParseFloat` (bit size 64), restricted to
    plain decimal forms: optional sign, decimal digits with an optional
    fractional part (at least one digit overall), an optional decimal
    exponent, and the case-insensitive `inf` / `infinity` / `nan`
    spellings.  The exact decimal value is correctly rounded to binary64,
    overflowing to `±Inf` with a range error, as in Go.  The Go function
    additionally accepts hexadecimal floats and digit-separating
    underscores, which no receipt field and no claim exercises; this
    model rejects those, and does not reproduce the fixed subnormal
    granularity for inputs below `10 ^ (-300)`. -/
def goParseFloat (l : List Char) : GoFloat × ParseErr :=
  let low := l.map lowerChar
  if low = "inf".data || low = "+inf".data || low = "infinity".data ||
      low = "+infinity".data then (.inf, .ok)
  else if low = "-inf".data || low = "-infinity".data then (.negInf, .ok)
  else if low = "nan".data then (.nan, .ok)
  else
    let sgn : Bool × List Char :=
      match l with
      | c :: rest => if c = '-' then (true, rest) else if c = '+' then (false, rest) else (false, l)
      | [] => (false, l)
    let neg := sgn.1
    let l1 := sgn.2
    let intDs := l1.takeWhile isDigitChar
    let r1 := l1.dropWhile isDigitChar
    let frac : List Char × List Char :=
      match r1 with
      | c :: rest =>
          if c = '.' then (rest.takeWhile isDigitChar, rest.dropWhile isDigitChar) else ([], r1)
      | [] => ([], r1)
    let fracDs := frac.1
    let r2 := frac.2
    if intDs.isEmpty && fracDs.isEmpty then (.finite 0 0, .malformed)
    else
      let mant := digitsToNat (intDs ++ fracDs)
      match r2 with
      | [] => convDecimal neg mant (-(fracDs.length : ℤ))
      | c :: r3 =>
          if c = 'e' || c = 'E' then
            let esgn : Bool × List Char :=
              match r3 with
              | c2 :: rest =>
                  if c2 = '-' then (true, rest)
                  else if c2 = '+' then (false, rest) else (false, r3)
              | [] => (false, r3)
            let expDs := esgn.2.takeWhile isDigitChar
            let r4 := esgn.2.dropWhile isDigitChar
            if expDs.isEmpty || !r4.isEmpty then (.finite 0 0, .malformed)
            else
              let ev : ℤ := if esgn.1 then -(digitsToNat expDs : ℤ) else (digitsToNat expDs : ℤ)
              convDecimal neg mant (ev - (fracDs.length : ℤ))
          else (.finite 0 0, .malformed)

/-! ## Go `time.Parse` with layouts `"15:04"` and `"2006-01-02"` -/

/-- Go `time` package `getnum`: a one- or two-digit number, exactly two
    digits when `fixed` is `true`. -/
def getnum (fixed : Bool) : List Char → Option (ℕ × List Char)
  | [] => none
  | c1 :: rest =>
    if isDigitChar c1 then
      match rest with
      | c2 :: rest2 =>
          if isDigitChar c2 then some (10 * digitVal c1 + digitVal c2, rest2)
          else if fixed then none else some (digitVal c1, rest)
      | [] => if fixed then none else some (digitVal c1, [])
    else none

/-- Exactly four digits (Go `time` `stdLongYear`). -/
def getnum4 : List Char → Option (ℕ × List Char)
  | a :: b :: c :: d :: rest =>
      if isDigitChar a && isDigitChar b && isDigitChar c && isDigitChar d then
        some (digitsToNat [a, b, c, d], rest)
      else none
  | _ => none

/-- Modelled from Go `time.Parse("15:04", s)`: hour of one or two digits
    (the `15` layout verb is not fixed-width), a colon, exactly two
    minute digits, nothing left over, hour ≤ 23 and minute ≤ 59 (the
    package's range checks). -/
def goParseTime (l : List Char) : Option (ℕ × ℕ) :=
  match getnum false l with
  | none => none
  | some (h, r1) =>
    match r1 with
    | c :: r2 =>
      if c = ':' then
        match getnum true r2 with
        | none => none
        | some (m, r3) =>
            if r3.isEmpty ∧ h < 24 ∧ m < 60 then some (h, m) else none
      else none
    | [] => none

def isLeapYear (y : ℕ) : Bool := y % 4 = 0 && (y % 100 ≠ 0 || y % 400 = 0)

/-- Go `time.daysIn`. -/
def daysIn (month y : ℕ) : ℕ :=
  if month = 2 then (if isLeapYear y then 29 else 28)
  else if month = 4 || month = 6 || month = 9 || month = 11 then 30
  else 31

/-- Modelled from Go `time.Parse("2006-01-02", s)`: a four-digit year,
    dash, two-digit month, dash, two-digit day, nothing left over, with
    the package's range checks `1 ≤ month ≤ 12` and
    `1 ≤ day ≤ daysIn(month, year)`. -/
def goParseDate (l : List Char) : Option (ℕ × ℕ × ℕ) :=
  match getnum4 l with
  | none => none
  | some (y, r1) =>
    match r1 with
    | c :: r2 =>
      if c = '-' then
        match getnum true r2 with
        | none => none
        | some (mo, r3) =>
          match r3 with
          | c2 :: r4 =>
            if c2 = '-' then
              match getnum true r4 with
              | none => none
              | some (d, r5) =>
                  if r5.isEmpty ∧ 1 ≤ mo ∧ mo ≤ 12 ∧ 1 ≤ d ∧ d ≤ daysIn mo y then
                    some (y, mo, d)
                  else none
            else none
          | [] => none
      else none
    | [] => none

/-! ## Data model (models/receipt.go) -/

/-- `models.Item`. -/
structure Item where
  shortDescription : List Char
  price : List Char
  deriving DecidableEq

/-- `models.Receipt`. -/
structure Receipt where
  retailer : List Char
  purchaseDate : List Char
  purchaseTime : List Char
  items : List Item
  total : List Char
  deriving DecidableEq

/-! ## Validator (handlers.go `validateReceipt`, `validateItem`) -/

/-- `validateItem`: `some reason` models a returned error. -/
def validateItem (i : Item) : Option String :=
  if i.shortDescription.isEmpty then some "item short description is required"
  else if i.price.isEmpty then some "item price is required"
  else if !matchesDesc i.shortDescription then some "invalid item short description format"
  else if !matchesMoney i.price then some "invalid item price format"
  else none

/-- The `for _, item := range r.Items` loop of `validateReceipt`:
    first failing item aborts. -/
def validateItems : List Item → Option String
  | [] => none
  | i :: rest =>
    match validateItem i with
    | some e => some e
    | none => validateItems rest

/-- `validateReceipt`. -/
def validateReceipt (r : Receipt) : Option String :=
  if r.retailer.isEmpty then some "retailer is required"
  else if r.purchaseDate.isEmpty then some "purchaseDate is required"
  else if r.purchaseTime.isEmpty then some "purchaseTime is required"
  else if r.items.isEmpty then some "at least one item is required"
  else if r.total.isEmpty then some "total is required"
  else if !matchesRetailer r.retailer then some "invalid retailer name format"
  else if (goParseDate r.purchaseDate).isNone then some "invalid purchase date format"
  else if (goParseTime r.purchaseTime).isNone then some "invalid purchase time format"
  else if !matchesMoney r.total then some "invalid total format"
  else validateItems r.items

/-! ## Scoring engine (handlers.go `calculatePoints` and helpers) -/

/-- The Go float64 constant `100`. -/
def float100 : GoFloat := flSigned false 100 1 0

/-- The Go float64 constant `0.2` (the literal rounds to binary64). -/
def float02 : GoFloat := flSigned false 1 5 0

/-- `isTotalMultipleOf25Cents`: parse the total as float64, return
    `false` on any parse error, else `int(f * 100) % 25 == 0`
    (Go `%` is truncated remainder). -/
def isTotalMultipleOf25Cents (total : List Char) : Bool :=
  match goParseFloat total with
  | (f, .ok) => decide ((goIntOfFloat (goMul f float100)).tmod 25 = 0)
  | _ => false

/-- `isPurchaseDateOdd`: `false` on parse error, else `t.Day() % 2 != 0`. -/
def isPurchaseDateOdd (date : List Char) : Bool :=
  match goParseDate date with
  | some (_, _, d) => decide (d % 2 ≠ 0)
  | none => false

/-- `isPurchaseTimeBetween2And4PM`: `false` on parse error, else
    `t.Hour() >= 14 && t.Hour() < 16`. -/
def isPurchaseTimeBetween2And4PM (t : List Char) : Bool :=
  match goParseTime t with
  | some (h, _) => decide (14 ≤ h ∧ h < 16)
  | none => false

/-- Rule 5 contribution of one item:
    `price, _ := strconv.ParseFloat(item.Price, 64)` (error discarded)
    then `int(math.Ceil(price * 0.2))`. -/
def r5ItemPoints (price : List Char) : ℤ :=
  goIntOfFloat (goCeil (goMul (goParseFloat price).1 float02))

/-- `calculatePoints`: the seven additive rules, accumulated with Go
    64-bit `int` wraparound on each `+=`. -/
def calculatePoints (r : Receipt) : ℤ :=
  let p1 := wrap64 (0 + (countAlphanumeric r.retailer : ℤ))
  let p2 := if goHasSuffix r.total ".00".data then wrap64 (p1 + 50) else p1
  let p3 := if isTotalMultipleOf25Cents r.total then wrap64 (p2 + 25) else p2
  let p4 := wrap64 (p3 + ((r.items.length / 2 * 5 : ℕ) : ℤ))
  let p5 := r.items.foldl
    (fun acc i =>
      if goLen (goTrimSpace i.shortDescription) % 3 = 0 then
        wrap64 (acc + r5ItemPoints i.price)
      else acc) p4
  let p6 := if isPurchaseDateOdd r.purchaseDate then wrap64 (p5 + 6) else p5
  if isPurchaseTimeBetween2And4PM r.purchaseTime then wrap64 (p6 + 10) else p6

end ReceiptProc

namespace ReceiptProc

/-- The worked example of the rules: retailer Target, two items,
    total 18.74, date 2022-01-01, time 13:01. -/
def targetReceipt : Receipt :=
  { retailer := "Target".data
    purchaseDate := "2022-01-01".data
    purchaseTime := "13:01".data
    items :=
      [ { shortDescription := "Mountain Dew 12PK".data, price := "6.49".data }
      , { shortDescription := "Emils Cheese Pizza".data, price := "12.25".data } ]
    total := "18.74".data }

/-! ## Result store and orchestrator (handlers.go) -/

/-- The in-memory store `receipts` (identifier → points).  Modelled as an
    association list where insertion prepends and lookup takes the newest
    binding, matching Go map overwrite semantics. -/
abbrev Store := List (String × ℤ)

/-- `receipts[id]` lookup. -/
def lookupStore : Store → String → Option ℤ
  | [], _ => none
  | (k, v) :: rest, id => if k = id then some v else lookupStore rest id

/-- `ProcessReceipt`: validate, score, store under the freshly generated
    identifier (`uuid.New().String()` is modelled as the `newId`
    argument), returning the identifier; on validation failure return the
    error and leave the store unchanged.  JSON decoding and JWT
    authentication are boundary adapters outside the core (spec §1). -/
def processReceipt (st : Store) (newId : String) (r : Receipt) :
    Except String String × Store :=
  match validateReceipt r with
  | some msg => (.error msg, st)
  | none => (.ok newId, (newId, calculatePoints r) :: st)

/-- The `GetPoints` 404 message. -/
def notFoundMsg : String := "No receipt found for that ID"

/-- `GetPoints`: look the identifier up, `NotFound` for unknown ids. -/
def getPoints (st : Store) (id : String) : Except String ℤ :=
  match lookupStore st id with
  | some p => .ok p
  | none => .error notFoundMsg

/-- Run a sequence of submissions, each with its generated identifier. -/
def runSubmits : Store → List (String × Receipt) → Store
  | st, [] => st
  | st, (id, r) :: rest => runSubmits (processReceipt st id r).2 rest

/-- The identifiers returned by the successful submissions of a run. -/
def issuedIds (ops : List (String × Receipt)) : List String :=
  (ops.filter fun p => (validateReceipt p.2).isNone).map Prod.fst

/-! ## Specification-side definitions (spec.md wording) -/

/-- Spec §4.1 step 6: the ordered checks of one item with their reasons. -/
def itemChecks (i : Item) : List (Bool × String) :=
  [ (i.shortDescription.isEmpty, "item short description is required")
  , (i.price.isEmpty, "item price is required")
  , (!matchesDesc i.shortDescription, "invalid item short description format")
  , (!matchesMoney i.price, "invalid item price format") ]

/-- Spec §4.1: the full ordered check list — the five presence checks
    first, then the four format checks, then each item in order. -/
def receiptChecks (r : Receipt) : List (Bool × String) :=
  [ (r.retailer.isEmpty, "retailer is required")
  , (r.purchaseDate.isEmpty, "purchaseDate is required")
  , (r.purchaseTime.isEmpty, "purchaseTime is required")
  , (r.items.isEmpty, "at least one item is required")
  , (r.total.isEmpty, "total is required")
  , (!matchesRetailer r.retailer, "invalid retailer name format")
  , ((goParseDate r.purchaseDate).isNone, "invalid purchase date format")
  , ((goParseTime r.purchaseTime).isNone, "invalid purchase time format")
  , (!matchesMoney r.total, "invalid total format") ]
  ++ (r.items.map itemChecks).flatten

/-- First failing check's reason, short-circuiting (spec §4.1 contract). -/
def firstFailure : List (Bool × String) → Option String
  | [] => none
  | (b, msg) :: rest => if b then some msg else firstFailure rest

/-- The claimed strict time shape: exactly two hour digits, a colon,
    exactly two minute digits, hour ≤ 23, minute ≤ 59. -/
def strictHHMM (l : List Char) : Bool :=
  match l with
  | [h1, h2, ':', m1, m2] =>
      isDigitChar h1 && isDigitChar h2 && isDigitChar m1 && isDigitChar m2 &&
      decide (10 * digitVal h1 + digitVal h2 < 24) &&
      decide (10 * digitVal m1 + digitVal m2 < 60)
  | _ => false

/-- The time shape the code accepts: one- OR two-digit hour, a colon,
    exactly two minute digits, hour ≤ 23, minute ≤ 59. -/
def goTimeShape (l : List Char) : Bool :=
  match l with
  | [h1, ':', m1, m2] =>
      isDigitChar h1 && isDigitChar m1 && isDigitChar m2 &&
      decide (10 * digitVal m1 + digitVal m2 < 60)
  | [h1, h2, ':', m1, m2] =>
      isDigitChar h1 && isDigitChar h2 && isDigitChar m1 && isDigitChar m2 &&
      decide (10 * digitVal h1 + digitVal h2 < 24) &&
      decide (10 * digitVal m1 + digitVal m2 < 60)
  | _ => false

/-- A copy of the worked example with the purchase time replaced. -/
def receiptWithTime (t : List Char) : Receipt :=
  { targetReceipt with purchaseTime := t }

/-- A validated receipt holding one item whose price is
    `2 * 10 ^ 308` dollars — syntactically valid (`\d+\.\d{2}`), beyond
    the largest finite float64. -/
def hugePriceReceipt : Receipt :=
  { retailer := "M".data
    purchaseDate := "2022-01-01".data
    purchaseTime := "13:01".data
    items := [ { shortDescription := "abc".data
               , price := '2' :: (List.replicate 308 '0' ++ ".00".data) } ]
    total := "1.00".data }

/-! ## Helper lemmas -/

theorem wrap64_eq_self {z : ℤ} (h1 : -2 ^ 63 ≤ z) (h2 : z < 2 ^ 63) : wrap64 z = z := by
  unfold wrap64
  rw [Int.emod_eq_of_lt (by omega) (by omega)]
  omega

/-! ## Bounds for the float model (claim C3)

`flFrac` rounds the positive value `(a / b) * 2 ^ off`; the facts needed
downstream are that the result is non-negative and at most twice the
input (a deliberately coarse but easily provable bound: the mantissa is
at most `value * 2 ^ (52 - lg) + 1` and `2 ^ (lg - 52) ≤ 2 ^ lg ≤ value`). -/

theorem log2Aux_eq : ∀ fuel n : ℕ, n ≤ fuel → log2Aux fuel n = Nat.log 2 n := by
  intro fuel
  induction fuel with
  | zero =>
      intro n hn
      have hz : n = 0 := by omega
      subst hz
      simp [log2Aux, Nat.log_zero_right]
  | succ f ih =>
      intro n hn
      unfold log2Aux
      split
      · rename_i hlt
        interval_cases n
        · simp [Nat.log_zero_right]
        · simp [Nat.log_one_right]
      · rename_i hge
        push_neg at hge
        rw [ih (n / 2) (by omega)]
        have hpos := Nat.log_pos (show 1 < 2 by norm_num) hge
        rw [Nat.log_div_base 2 n]
        omega

theorem natLog2_eq (n : ℕ) : natLog2 n = Nat.log 2 n := log2Aux_eq n n le_rfl

theorem pow_natLog2_le {n : ℕ} (h : n ≠ 0) : 2 ^ natLog2 n ≤ n := by
  rw [natLog2_eq]
  exact Nat.pow_log_le_self 2 h

theorem lt_pow_natLog2_succ (n : ℕ) : n < 2 ^ (natLog2 n + 1) := by
  rw [natLog2_eq]
  exact Nat.lt_pow_succ_log_self (by norm_num) n

theorem pow2LE_true_iff {e : ℤ} {a b : ℕ} (hb : 0 < b) :
    pow2LE e a b = true ↔ (2 : ℚ) ^ e ≤ (a : ℚ) / b := by
  have hbq : (0 : ℚ) < (b : ℚ) := by exact_mod_cast hb
  unfold pow2LE
  split
  · rename_i he
    rw [decide_eq_true_eq, le_div_iff₀ hbq]
    have hcast : ((b * 2 ^ e.toNat : ℕ) : ℚ) = (2 : ℚ) ^ e * b := by
      push_cast
      rw [← zpow_natCast (2 : ℚ) e.toNat, Int.toNat_of_nonneg he]
      ring
    constructor
    · intro h
      have h2 : ((b * 2 ^ e.toNat : ℕ) : ℚ) ≤ (a : ℚ) := by exact_mod_cast h
      rw [hcast] at h2
      exact h2
    · intro h
      have h2 : ((b * 2 ^ e.toNat : ℕ) : ℚ) ≤ (a : ℚ) := by rw [hcast]; exact h
      exact_mod_cast h2
  · rename_i he
    push_neg at he
    rw [decide_eq_true_eq, le_div_iff₀ hbq]
    have hnegp : (0 : ℚ) < (2 : ℚ) ^ (-e) := zpow_pos (by norm_num) _
    have hcast : ((a * 2 ^ (-e).toNat : ℕ) : ℚ) = (a : ℚ) * (2 : ℚ) ^ (-e) := by
      push_cast
      rw [← zpow_natCast (2 : ℚ) (-e).toNat, Int.toNat_of_nonneg (by omega)]
    have hid : (2 : ℚ) ^ e * (2 : ℚ) ^ (-e) = 1 := by
      rw [← zpow_add₀ (by norm_num : (2 : ℚ) ≠ 0)]
      simp
    constructor
    · intro h
      have h1 : (b : ℚ) ≤ (a : ℚ) * (2 : ℚ) ^ (-e) := by
        rw [← hcast]
        exact_mod_cast h
      have h2 := mul_le_mul_of_nonneg_left h1 (zpow_pos (show (0:ℚ) < 2 by norm_num) e).le
      calc (2 : ℚ) ^ e * b ≤ (2 : ℚ) ^ e * ((a : ℚ) * 2 ^ (-e)) := h2
        _ = (a : ℚ) * ((2 : ℚ) ^ e * 2 ^ (-e)) := by ring
        _ = a := by rw [hid]; ring
    · intro h
      have h2 := mul_le_mul_of_nonneg_right h hnegp.le
      have h3 : (b : ℚ) ≤ (a : ℚ) * 2 ^ (-e) := by
        calc (b : ℚ) = (2 : ℚ) ^ e * (b : ℚ) * 2 ^ (-e) := by
              rw [mul_comm ((2:ℚ) ^ e) (b : ℚ), mul_assoc, hid, mul_one]
          _ ≤ (a : ℚ) * 2 ^ (-e) := h2
      have h4 : (b : ℚ) ≤ ((a * 2 ^ (-e).toNat : ℕ) : ℚ) := by rw [hcast]; exact h3
      exact_mod_cast h4

theorem floorLog2_le {a b : ℕ} (ha : 0 < a) (hb : 0 < b) :
    (2 : ℚ) ^ floorLog2 a b ≤ (a : ℚ) / b := by
  simp only [floorLog2]
  split
  · rename_i h
    exact (pow2LE_true_iff hb).mp h
  · rename_i h
    have hbq : (0 : ℚ) < (b : ℚ) := by exact_mod_cast hb
    have h1 : (2 : ℚ) ^ (natLog2 a : ℤ) ≤ (a : ℚ) := by
      rw [zpow_natCast]
      exact_mod_cast pow_natLog2_le ha.ne'
    have h2 : (b : ℚ) < (2 : ℚ) ^ ((natLog2 b : ℤ) + 1) := by
      rw [show ((natLog2 b : ℤ) + 1) = ((natLog2 b + 1 : ℕ) : ℤ) by push_cast; ring,
        zpow_natCast]
      exact_mod_cast lt_pow_natLog2_succ b
    rw [le_div_iff₀ hbq]
    have hkey : (2 : ℚ) ^ ((natLog2 a : ℤ) - (natLog2 b : ℤ) - 1) *
        (2 : ℚ) ^ ((natLog2 b : ℤ) + 1) = (2 : ℚ) ^ (natLog2 a : ℤ) := by
      rw [← zpow_add₀ (by norm_num : (2 : ℚ) ≠ 0)]
      congr 1
      ring
    calc (2 : ℚ) ^ ((natLog2 a : ℤ) - (natLog2 b : ℤ) - 1) * (b : ℚ)
        ≤ (2 : ℚ) ^ ((natLog2 a : ℤ) - (natLog2 b : ℤ) - 1) *
            (2 : ℚ) ^ ((natLog2 b : ℤ) + 1) :=
          mul_le_mul_of_nonneg_left h2.le (zpow_pos (by norm_num) _).le
      _ = (2 : ℚ) ^ (natLog2 a : ℤ) := hkey
      _ ≤ (a : ℚ) := h1

theorem roundHalfEven_le_add_one (num den : ℕ) (hden : 0 < den) :
    (roundHalfEven num den : ℚ) ≤ (num : ℚ) / den + 1 := by
  have hq : ((num / den : ℕ) : ℚ) ≤ (num : ℚ) / den := Nat.cast_div_le
  have hb : roundHalfEven num den ≤ num / den + 1 := by
    simp only [roundHalfEven]
    split_ifs <;> omega
  calc (roundHalfEven num den : ℚ) ≤ ((num / den + 1 : ℕ) : ℚ) := by exact_mod_cast hb
    _ = ((num / den : ℕ) : ℚ) + 1 := by push_cast; ring
    _ ≤ (num : ℚ) / den + 1 := by linarith

theorem flFrac_nonneg (a b : ℕ) (off : ℤ) : 0 ≤ (flFrac a b off).1 := by
  simp only [flFrac]
  exact Int.natCast_nonneg _

theorem flFrac_val_le {a b : ℕ} (ha : 0 < a) (hb : 0 < b) (off : ℤ) :
    dyVal (flFrac a b off).1 (flFrac a b off).2 ≤ 2 * ((a : ℚ) / b * (2 : ℚ) ^ off) := by
  have hbq : (0 : ℚ) < (b : ℚ) := by exact_mod_cast hb
  have hfl := floorLog2_le ha hb
  have hratio : ∀ num den : ℕ, 0 < den →
      ((num : ℚ) / den = (a : ℚ) / b * (2 : ℚ) ^ (52 - floorLog2 a b)) →
      dyVal ((roundHalfEven num den : ℕ) : ℤ) (floorLog2 a b + off - 52) ≤
        2 * ((a : ℚ) / b * (2 : ℚ) ^ off) := by
    intro num den hden hnd
    unfold dyVal
    have h1 : (((roundHalfEven num den : ℕ) : ℤ) : ℚ) ≤
        (a : ℚ) / b * (2 : ℚ) ^ (52 - floorLog2 a b) + 1 := by
      have hle := roundHalfEven_le_add_one num den hden
      rw [hnd] at hle
      exact_mod_cast hle
    have hp1 : (0 : ℚ) < (2 : ℚ) ^ (floorLog2 a b + off - 52) := zpow_pos (by norm_num) _
    have hsplit : (2 : ℚ) ^ (52 - floorLog2 a b) * (2 : ℚ) ^ (floorLog2 a b + off - 52)
        = (2 : ℚ) ^ off := by
      rw [← zpow_add₀ (by norm_num : (2 : ℚ) ≠ 0)]
      congr 1
      ring
    have hsmall : (2 : ℚ) ^ (floorLog2 a b + off - 52) ≤ (a : ℚ) / b * (2 : ℚ) ^ off := by
      have e1 : (2 : ℚ) ^ (floorLog2 a b + off - 52)
          = (2 : ℚ) ^ floorLog2 a b * (2 : ℚ) ^ off * (2 : ℚ) ^ (-52 : ℤ) := by
        rw [← zpow_add₀ (by norm_num : (2 : ℚ) ≠ 0),
          ← zpow_add₀ (by norm_num : (2 : ℚ) ≠ 0)]
        congr 1
        try ring
      have e2 : (2 : ℚ) ^ (-52 : ℤ) ≤ 1 := by
        rw [show (-52 : ℤ) = -(52 : ℤ) from rfl, zpow_neg]
        exact inv_le_one_of_one_le₀ (one_le_zpow₀ (by norm_num) (by norm_num))
      have hoffp : (0 : ℚ) < (2 : ℚ) ^ off := zpow_pos (by norm_num) _
      rw [e1]
      calc (2 : ℚ) ^ floorLog2 a b * (2 : ℚ) ^ off * (2 : ℚ) ^ (-52 : ℤ)
          ≤ (2 : ℚ) ^ floorLog2 a b * (2 : ℚ) ^ off * 1 := by
            apply mul_le_mul_of_nonneg_left e2
            positivity
        _ = (2 : ℚ) ^ floorLog2 a b * (2 : ℚ) ^ off := by ring
        _ ≤ (a : ℚ) / b * (2 : ℚ) ^ off := mul_le_mul_of_nonneg_right hfl hoffp.le
    calc ((((roundHalfEven num den : ℕ) : ℤ)) : ℚ) * (2 : ℚ) ^ (floorLog2 a b + off - 52)
        ≤ ((a : ℚ) / b * (2 : ℚ) ^ (52 - floorLog2 a b) + 1) *
            (2 : ℚ) ^ (floorLog2 a b + off - 52) := mul_le_mul_of_nonneg_right h1 hp1.le
      _ = (a : ℚ) / b * ((2 : ℚ) ^ (52 - floorLog2 a b) *
            (2 : ℚ) ^ (floorLog2 a b + off - 52)) + (2 : ℚ) ^ (floorLog2 a b + off - 52) := by
          ring
      _ = (a : ℚ) / b * (2 : ℚ) ^ off + (2 : ℚ) ^ (floorLog2 a b + off - 52) := by
          rw [hsplit]
      _ ≤ (a : ℚ) / b * (2 : ℚ) ^ off + (a : ℚ) / b * (2 : ℚ) ^ off := by linarith
      _ = 2 * ((a : ℚ) / b * (2 : ℚ) ^ off) := by ring
  simp only [flFrac]
  by_cases hs : (0 : ℤ) ≤ 52 - floorLog2 a b
  · simp only [if_pos hs]
    apply hratio _ _ hb
    push_cast
    rw [← zpow_natCast (2 : ℚ) (52 - floorLog2 a b).toNat, Int.toNat_of_nonneg hs]
    ring
  · simp only [if_neg hs]
    apply hratio _ _ (Nat.mul_pos hb (Nat.two_pow_pos _))
    have ht : (0 : ℤ) ≤ -(52 - floorLog2 a b) := by omega
    push_cast
    rw [← zpow_natCast (2 : ℚ) (-(52 - floorLog2 a b)).toNat, Int.toNat_of_nonneg ht,
      div_mul_eq_div_div, div_eq_mul_inv ((a : ℚ) / b), ← zpow_neg, neg_neg]

theorem dyVal_nonneg {m : ℤ} (e : ℤ) (hm : 0 ≤ m) : 0 ≤ dyVal m e := by
  unfold dyVal
  have hq : (0 : ℚ) ≤ (m : ℚ) := by exact_mod_cast hm
  positivity

theorem dyOverflows_false_of_le {m e : ℤ} (hm : 0 ≤ m) (hv : dyVal m e ≤ maxF64Q) :
    dyOverflows m e = false := by
  have hmq : ((m.natAbs : ℕ) : ℚ) = (m : ℚ) := by
    rw [Int.cast_natAbs, abs_of_nonneg hm]
  have hcpow : ((2 ^ 53 - 1 : ℕ) : ℚ) = (2 : ℚ) ^ 53 - 1 := by norm_num
  by_contra hcon
  rw [Bool.not_eq_false] at hcon
  unfold dyOverflows at hcon
  unfold dyVal maxF64Q at hv
  split at hcon
  · rename_i h971
    rw [decide_eq_true_eq] at hcon
    have hq : ((2 : ℚ) ^ 53 - 1) < (m : ℚ) * (2 : ℚ) ^ ((e - 971).toNat : ℕ) := by
      have hc : ((2 ^ 53 - 1 : ℕ) : ℚ) < ((m.natAbs * 2 ^ (e - 971).toNat : ℕ) : ℚ) := by
        exact_mod_cast hcon
      rw [hcpow, show ((m.natAbs * 2 ^ (e - 971).toNat : ℕ) : ℚ)
        = ((m.natAbs : ℕ) : ℚ) * ((2 : ℚ) ^ ((e - 971).toNat : ℕ)) from by push_cast; ring,
        hmq] at hc
      exact hc
    have hsplit : (2 : ℚ) ^ e = (2 : ℚ) ^ ((e - 971).toNat : ℕ) * (2 : ℚ) ^ (971 : ℤ) := by
      rw [← zpow_natCast (2 : ℚ) (e - 971).toNat, Int.toNat_of_nonneg (by omega : (0:ℤ) ≤ e - 971),
        ← zpow_add₀ (by norm_num : (2 : ℚ) ≠ 0)]
      congr 1
      omega
    rw [hsplit] at hv
    have hpos : (0 : ℚ) < (2 : ℚ) ^ (971 : ℤ) := zpow_pos (by norm_num) _
    have hlt := mul_lt_mul_of_pos_right hq hpos
    nlinarith
  · rename_i h971
    push_neg at h971
    rw [decide_eq_true_eq] at hcon
    have hq : ((2 : ℚ) ^ 53 - 1) * (2 : ℚ) ^ ((971 - e).toNat : ℕ) < (m : ℚ) := by
      have hc : (((2 ^ 53 - 1) * 2 ^ (971 - e).toNat : ℕ) : ℚ) < ((m.natAbs : ℕ) : ℚ) := by
        exact_mod_cast hcon
      rw [hmq, show (((2 ^ 53 - 1) * 2 ^ (971 - e).toNat : ℕ) : ℚ)
        = ((2 ^ 53 - 1 : ℕ) : ℚ) * ((2 : ℚ) ^ ((971 - e).toNat : ℕ)) from by push_cast; ring,
        hcpow] at hc
      exact hc
    have hsplit : (2 : ℚ) ^ (971 : ℤ) = (2 : ℚ) ^ ((971 - e).toNat : ℕ) * (2 : ℚ) ^ e := by
      rw [← zpow_natCast (2 : ℚ) (971 - e).toNat, Int.toNat_of_nonneg (by omega : (0:ℤ) ≤ 971 - e),
        ← zpow_add₀ (by norm_num : (2 : ℚ) ≠ 0)]
      congr 1
      omega
    rw [hsplit] at hv
    have hpos : (0 : ℚ) < (2 : ℚ) ^ e := zpow_pos (by norm_num) _
    have hlt := mul_lt_mul_of_pos_right hq hpos
    nlinarith

theorem flSigned_pos_spec {a b : ℕ} (ha : 0 < a) (hb : 0 < b) (off : ℤ) {B : ℚ}
    (hB : 2 * ((a : ℚ) / b * (2 : ℚ) ^ off) ≤ B) (hBmax : B ≤ maxF64Q) :
    ∃ m e : ℤ, flSigned false a b off = .finite m e ∧ 0 ≤ m ∧ dyVal m e ≤ B := by
  have hval := flFrac_val_le ha hb off
  have hnn := flFrac_nonneg a b off
  have hle : dyVal (flFrac a b off).1 (flFrac a b off).2 ≤ B := le_trans hval hB
  have hov : dyOverflows (flFrac a b off).1 (flFrac a b off).2 = false :=
    dyOverflows_false_of_le hnn (le_trans hle hBmax)
  refine ⟨(flFrac a b off).1, (flFrac a b off).2, ?_, hnn, hle⟩
  unfold flSigned
  rw [if_neg (by omega : ¬ a = 0)]
  rcases hp : flFrac a b off with ⟨m, e⟩
  rw [hp] at hov
  simp [hov, hp]

theorem goMul_nonneg_le {m1 e1 m2 e2 : ℤ} {B1 B2 : ℚ}
    (h1 : 0 ≤ m1) (h2 : 0 ≤ m2) (hv1 : dyVal m1 e1 ≤ B1) (hv2 : dyVal m2 e2 ≤ B2)
    (hB2 : 0 ≤ B2) (hmax : 2 * (B1 * B2) ≤ maxF64Q) :
    ∃ m e : ℤ, goMul (.finite m1 e1) (.finite m2 e2) = .finite m e ∧ 0 ≤ m ∧
      dyVal m e ≤ 2 * (B1 * B2) := by
  have hB1 : 0 ≤ B1 := le_trans (dyVal_nonneg e1 h1) hv1
  by_cases hz : m1 = 0 ∨ m2 = 0
  · refine ⟨0, 0, ?_, le_refl 0, ?_⟩
    · rcases hz with hz | hz <;> simp [goMul, hz]
    · unfold dyVal
      simp only [Int.cast_zero, zero_mul]
      positivity
  · push_neg at hz
    have hm1 : 0 < m1 := lt_of_le_of_ne h1 (Ne.symm hz.1)
    have hm2 : 0 < m2 := lt_of_le_of_ne h2 (Ne.symm hz.2)
    have hprod : 0 < m1 * m2 := mul_pos hm1 hm2
    have habs : (((m1 * m2).natAbs : ℕ) : ℚ) = ((m1 * m2 : ℤ) : ℚ) := by
      rw [Int.cast_natAbs, abs_of_nonneg hprod.le]
    have hkey : 2 * (((m1 * m2).natAbs : ℚ) / (1 : ℕ) * (2 : ℚ) ^ (e1 + e2)) ≤ 2 * (B1 * B2) := by
      have hdv : ((m1 * m2).natAbs : ℚ) / (1 : ℕ) * (2 : ℚ) ^ (e1 + e2)
          = dyVal m1 e1 * dyVal m2 e2 := by
        rw [habs]
        unfold dyVal
        push_cast
        rw [zpow_add₀ (by norm_num : (2 : ℚ) ≠ 0)]
        ring
      rw [hdv]
      have := mul_le_mul hv1 hv2 (dyVal_nonneg e2 h2) hB1
      linarith
    obtain ⟨m, e, heq, hm, hv⟩ := flSigned_pos_spec (Int.natAbs_pos.mpr (by omega)) one_pos
      (e1 + e2) hkey (le_trans (by linarith) hmax)
    refine ⟨m, e, ?_, hm, hv⟩
    simp only [goMul]
    rw [if_neg (show ¬((decide (m1 = 0) || decide (m2 = 0)) = true) from by
        simp [hz.1, hz.2]),
      show decide (m1 * m2 < 0) = false from decide_eq_false (not_lt.mpr hprod.le)]
    exact heq

theorem dyTrunc_nonneg_le (e : ℤ) {m : ℤ} (hm : 0 ≤ m) :
    0 ≤ dyTrunc m e ∧ (dyTrunc m e : ℚ) ≤ dyVal m e := by
  unfold dyTrunc dyVal
  split
  · rename_i he
    constructor
    · exact mul_nonneg hm (by positivity)
    · rw [show (((m * 2 ^ e.toNat : ℤ)) : ℚ) = (m : ℚ) * (2 : ℚ) ^ (e.toNat : ℕ) from by
        push_cast; ring, ← zpow_natCast (2 : ℚ) e.toNat, Int.toNat_of_nonneg he]
  · rename_i he
    push_neg at he
    have hkpos : (0 : ℤ) < 2 ^ (-e).toNat := by positivity
    rw [Int.tdiv_eq_ediv hm (le_of_lt hkpos)]
    constructor
    · exact Int.ediv_nonneg hm hkpos.le
    · have hmul : (2 ^ (-e).toNat : ℤ) * (m / 2 ^ (-e).toNat) ≤ m := by
        have ha1 := Int.ediv_add_emod m (2 ^ (-e).toNat)
        have ha2 := Int.emod_nonneg m (by omega : (2 ^ (-e).toNat : ℤ) ≠ 0)
        linarith
      have hkq : (0 : ℚ) < ((2 ^ (-e).toNat : ℤ) : ℚ) := by exact_mod_cast hkpos
      have hq : ((2 ^ (-e).toNat : ℤ) : ℚ) * ((m / 2 ^ (-e).toNat : ℤ) : ℚ) ≤ (m : ℚ) := by
        exact_mod_cast hmul
      have hzp : (2 : ℚ) ^ e = (((2 ^ (-e).toNat : ℤ) : ℚ))⁻¹ := by
        rw [show ((2 ^ (-e).toNat : ℤ) : ℚ) = (2 : ℚ) ^ ((-e).toNat : ℕ) from by push_cast; ring,
          ← zpow_natCast (2 : ℚ) (-e).toNat, Int.toNat_of_nonneg (by omega : (0:ℤ) ≤ -e),
          ← zpow_neg]
        congr 1
        omega
      rw [hzp, ← div_eq_mul_inv, le_div_iff₀ hkq, mul_comm]
      exact hq

theorem goIntOfFloat_finite_bound {m e : ℤ} {B : ℚ} (hm : 0 ≤ m) (hv : dyVal m e ≤ B)
    (hB62 : B ≤ (2 : ℚ) ^ (62 : ℕ)) :
    0 ≤ goIntOfFloat (.finite m e) ∧ (goIntOfFloat (.finite m e) : ℚ) ≤ B := by
  obtain ⟨ht0, htle⟩ := dyTrunc_nonneg_le e hm
  have htB : (dyTrunc m e : ℚ) ≤ B := le_trans htle hv
  have htrange : dyTrunc m e ≤ 2 ^ 63 - 1 := by
    have h1 : (dyTrunc m e : ℚ) ≤ ((2 ^ 63 - 1 : ℤ) : ℚ) := by
      calc (dyTrunc m e : ℚ) ≤ B := htB
        _ ≤ (2 : ℚ) ^ (62 : ℕ) := hB62
        _ ≤ ((2 ^ 63 - 1 : ℤ) : ℚ) := by norm_num
    exact_mod_cast h1
  simp only [goIntOfFloat]
  rw [if_pos ⟨by omega, htrange⟩]
  exact ⟨ht0, htB⟩

theorem two_pow62_le_maxF64Q : (2 : ℚ) ^ (62 : ℕ) ≤ maxF64Q := by
  unfold maxF64Q
  have h1 : (2 : ℚ) ^ ((62 : ℕ) : ℤ) ≤ (2 : ℚ) ^ (971 : ℤ) :=
    zpow_le_zpow_right₀ (by norm_num) (by norm_num)
  rw [zpow_natCast] at h1
  nlinarith [h1]

theorem goCeil_intOf_bound {m e : ℤ} {B : ℚ} (hm : 0 ≤ m) (hv : dyVal m e ≤ B)
    (hB : 0 ≤ B) (hBsmall : 2 * (B + 1) ≤ (2 : ℚ) ^ (62 : ℕ)) :
    0 ≤ goIntOfFloat (goCeil (.finite m e)) ∧
      (goIntOfFloat (goCeil (.finite m e)) : ℚ) ≤ 2 * (B + 1) := by
  simp only [goCeil]
  split
  · rename_i he
    have hres := goIntOfFloat_finite_bound hm hv (by linarith)
    exact ⟨hres.1, by linarith [hres.2]⟩
  · rename_i he
    push_neg at he
    set n : ℤ := -((-m).fdiv (2 ^ (-e).toNat)) with hn
    have hkpos : (0 : ℤ) < 2 ^ (-e).toNat := by positivity
    have hfd := Int.fdiv_add_fmod (-m) (2 ^ (-e).toNat)
    have hr0 : 0 ≤ (-m).fmod (2 ^ (-e).toNat) := Int.fmod_nonneg' (-m) hkpos
    have hrlt : (-m).fmod (2 ^ (-e).toNat) < 2 ^ (-e).toNat := Int.fmod_lt_of_pos (-m) hkpos
    have hneq : n * 2 ^ (-e).toNat = m + (-m).fmod (2 ^ (-e).toNat) := by
      rw [hn]
      linear_combination -hfd
    have hn0 : 0 ≤ n := by
      by_contra hneg
      push_neg at hneg
      have hstep : n * 2 ^ (-e).toNat ≤ (-1) * 2 ^ (-e).toNat :=
        mul_le_mul_of_nonneg_right (by omega) hkpos.le
      linarith
    have hzp : (2 : ℚ) ^ e = (((2 ^ (-e).toNat : ℤ) : ℚ))⁻¹ := by
      rw [show ((2 ^ (-e).toNat : ℤ) : ℚ) = (2 : ℚ) ^ ((-e).toNat : ℕ) from by push_cast; ring,
        ← zpow_natCast (2 : ℚ) (-e).toNat, Int.toNat_of_nonneg (by omega : (0:ℤ) ≤ -e),
        ← zpow_neg]
      congr 1
      omega
    have hkq : (0 : ℚ) < ((2 ^ (-e).toNat : ℤ) : ℚ) := by exact_mod_cast hkpos
    have hnB : (n : ℚ) ≤ B + 1 := by
      have hscaled : n * 2 ^ (-e).toNat ≤ m + 2 ^ (-e).toNat := by linarith
      have hq : (n : ℚ) * ((2 ^ (-e).toNat : ℤ) : ℚ) ≤ (m : ℚ) + ((2 ^ (-e).toNat : ℤ) : ℚ) := by
        exact_mod_cast hscaled
      have h1 : (n : ℚ) ≤ (m : ℚ) * (((2 ^ (-e).toNat : ℤ) : ℚ))⁻¹ + 1 := by
        rw [← sub_le_iff_le_add, ← div_eq_mul_inv, le_div_iff₀ hkq]
        have hexp : ((n : ℚ) - 1) * ((2 ^ (-e).toNat : ℤ) : ℚ)
            = (n : ℚ) * ((2 ^ (-e).toNat : ℤ) : ℚ) - ((2 ^ (-e).toNat : ℤ) : ℚ) := by ring
        linarith [hq, hexp]
      have h2 : dyVal m e = (m : ℚ) * (((2 ^ (-e).toNat : ℤ) : ℚ))⁻¹ := by
        unfold dyVal
        rw [hzp]
      linarith [h1, h2 ▸ hv]
    split
    · rename_i hnz
      refine ⟨by norm_num [goIntOfFloat, dyTrunc], ?_⟩
      rw [show goIntOfFloat (.finite 0 0) = 0 from by norm_num [goIntOfFloat, dyTrunc]]
      push_cast
      linarith
    · rename_i hnz
      rw [show decide (n < 0) = false from decide_eq_false (not_lt.mpr hn0)]
      have hnat : ((n.natAbs : ℕ) : ℚ) = (n : ℚ) := by
        rw [Int.cast_natAbs, abs_of_nonneg hn0]
      have hkey : 2 * ((n.natAbs : ℚ) / ((1 : ℕ) : ℚ) * (2 : ℚ) ^ (0 : ℤ)) ≤ 2 * (B + 1) := by
        rw [hnat]
        norm_num
        linarith
      obtain ⟨m', e', heq, hm', hv'⟩ := flSigned_pos_spec (Int.natAbs_pos.mpr hnz) one_pos 0
        hkey (le_trans hBsmall two_pow62_le_maxF64Q)
      rw [heq]
      exact goIntOfFloat_finite_bound hm' hv' hBsmall

/-! ## The validated-money pipeline (claim C3) -/

theorem isDigitChar_toNat {c : Char} (h : isDigitChar c = true) :
    48 ≤ c.toNat ∧ c.toNat ≤ 57 := by
  unfold isDigitChar at h
  rw [Bool.and_eq_true, decide_eq_true_eq, decide_eq_true_eq] at h
  exact ⟨h.1, h.2⟩

theorem digitVal_le_nine {c : Char} (h : isDigitChar c = true) : digitVal c ≤ 9 := by
  have h2 := isDigitChar_toNat h
  unfold digitVal
  have h0 : '0'.toNat = 48 := rfl
  omega

theorem digitVal_lt_24 {c : Char} (h : isDigitChar c = true) : digitVal c < 24 := by
  have := digitVal_le_nine h
  omega

theorem digit_ne_chars {c : Char} (h : isDigitChar c = true) :
    c ≠ '.' ∧ c ≠ '-' ∧ c ≠ '+' ∧ c ≠ 'i' ∧ c ≠ 'n' := by
  refine ⟨?_, ?_, ?_, ?_, ?_⟩ <;> (rintro rfl; exact absurd h (by decide))

theorem digit_bne_dot {c : Char} (h : isDigitChar c = true) : (c != '.') = true := by
  simp only [bne_iff_ne, ne_eq]
  exact (digit_ne_chars h).1

theorem digitsToNat_aux_lt : ∀ (l : List Char) (acc : ℕ),
    (∀ c ∈ l, isDigitChar c = true) →
    List.foldl (fun a c => 10 * a + digitVal c) acc l < (acc + 1) * 10 ^ l.length := by
  intro l
  induction l with
  | nil =>
      intro acc _
      simp
  | cons c t ih =>
      intro acc hall
      simp only [List.foldl_cons, List.length_cons]
      have hc : digitVal c ≤ 9 := digitVal_le_nine (hall c (List.mem_cons_self c t))
      have h2 := ih (10 * acc + digitVal c) (fun x hx => hall x (List.mem_cons_of_mem c hx))
      calc List.foldl (fun a c => 10 * a + digitVal c) (10 * acc + digitVal c) t
          < (10 * acc + digitVal c + 1) * 10 ^ t.length := h2
        _ ≤ ((acc + 1) * 10) * 10 ^ t.length :=
            Nat.mul_le_mul_right _ (by omega)
        _ = (acc + 1) * 10 ^ (t.length + 1) := by ring

theorem digitsToNat_lt (l : List Char) (hall : ∀ c ∈ l, isDigitChar c = true) :
    digitsToNat l < 10 ^ l.length := by
  have h := digitsToNat_aux_lt l 0 hall
  simpa [digitsToNat] using h

theorem matchesMoney_struct {l : List Char} (h : matchesMoney l = true) :
    ∃ ds d1 d2, l = ds ++ ['.', d1, d2] ∧ ds ≠ [] ∧
      (∀ c ∈ ds, isDigitChar c = true) ∧ isDigitChar d1 = true ∧ isDigitChar d2 = true := by
  simp only [matchesMoney, Bool.and_eq_true] at h
  obtain ⟨hne, hm⟩ := h
  split at hm
  · rename_i c d1 d2 heq
    rw [Bool.and_eq_true, Bool.and_eq_true, decide_eq_true_eq] at hm
    obtain ⟨⟨hcdot, h1⟩, h2⟩ := hm
    subst hcdot
    refine ⟨l.takeWhile isDigitChar, d1, d2, ?_, ?_, ?_, h1, h2⟩
    · rw [← heq]
      exact (List.takeWhile_append_dropWhile isDigitChar l).symm
    · intro hcon
      rw [hcon] at hne
      simp at hne
    · intro c hc
      exact List.mem_takeWhile_imp hc
  · simp at hm

/-- A validated money string parses to the correctly rounded value of
    `cents / 100` — the exact pipeline `ParseFloat` applies to a
    `\d+\.\d{2}` total or price. -/
theorem goParseFloat_money {l : List Char} (h : matchesMoney l = true) :
    goParseFloat l = convDecimal false (moneyCents l) (-2) := by
  obtain ⟨ds, d1, d2, hl, hne, hds, h1, h2⟩ := matchesMoney_struct h
  obtain ⟨c0, ds', rfl⟩ : ∃ c0 ds', ds = c0 :: ds' := by
    cases ds with
    | nil => exact absurd rfl hne
    | cons a t => exact ⟨a, t, rfl⟩
  subst hl
  have hc0 : isDigitChar c0 = true := hds c0 (List.mem_cons_self _ _)
  obtain ⟨hdot0, hminus0, hplus0, hi0, hn0⟩ := digit_ne_chars hc0
  have hlow : lowerChar c0 = c0 := by
    have hb := isDigitChar_toNat hc0
    have hA : decide ('A' ≤ c0) = false := by
      apply decide_eq_false
      intro hge
      have h65 : 65 ≤ c0.toNat := hge
      omega
    simp [lowerChar, hA]
  have htake : List.takeWhile isDigitChar (c0 :: (ds' ++ ['.', d1, d2])) = c0 :: ds' := by
    rw [show c0 :: (ds' ++ ['.', d1, d2]) = (c0 :: ds') ++ ['.', d1, d2] from rfl,
      List.takeWhile_append_of_pos hds]
    simp [List.takeWhile_cons, show isDigitChar '.' = false from rfl]
  have hdrop : List.dropWhile isDigitChar (c0 :: (ds' ++ ['.', d1, d2])) = ['.', d1, d2] := by
    rw [show c0 :: (ds' ++ ['.', d1, d2]) = (c0 :: ds') ++ ['.', d1, d2] from rfl,
      List.dropWhile_append_of_pos hds]
    simp [List.dropWhile_cons, show isDigitChar '.' = false from rfl]
  have hcents : moneyCents (c0 :: (ds' ++ ['.', d1, d2]))
      = digitsToNat (c0 :: (ds' ++ [d1, d2])) := by
    unfold moneyCents
    rw [show c0 :: (ds' ++ ['.', d1, d2]) = (c0 :: ds') ++ ['.', d1, d2] from rfl]
    rw [show c0 :: (ds' ++ [d1, d2]) = (c0 :: ds') ++ [d1, d2] from rfl]
    congr 1
    rw [List.filter_append,
      List.filter_eq_self.mpr (fun c hc => digit_bne_dot (hds c hc))]
    simp [List.filter_cons, digit_bne_dot h1, digit_bne_dot h2]
  simp only [goParseFloat, List.cons_append, List.map_cons, hlow]
  rw [if_neg, if_neg, if_neg]
  · rw [if_neg (show ¬ c0 = '-' from hminus0), if_neg (show ¬ c0 = '+' from hplus0)]
    simp [htake, hdrop, hcents, h1, h2, show isDigitChar '.' = false from rfl]
  · intro hcon
    rw [List.cons.injEq] at hcon
    exact hn0 hcon.1
  · simp only [Bool.or_eq_true, decide_eq_true_eq, List.cons.injEq]
    intro hcon
    tauto
  · simp only [Bool.or_eq_true, decide_eq_true_eq, List.cons.injEq]
    intro hcon
    tauto

theorem convDecimal_money_fst (mant : ℕ) :
    (convDecimal false mant (-2)).1 = flSigned false mant 100 0 := by
  simp only [convDecimal]
  rw [if_neg (by norm_num : ¬ (0 : ℤ) ≤ (-2 : ℤ)),
    show ((-(-2 : ℤ)).toNat) = 2 from rfl, show (10 : ℕ) ^ 2 = 100 from rfl]
  split <;> simp_all

theorem moneyCents_lt {l : List Char} (h : matchesMoney l = true) :
    moneyCents l < 10 ^ (l.length - 1) := by
  obtain ⟨ds, d1, d2, hl, hne, hds, h1, h2⟩ := matchesMoney_struct h
  subst hl
  have hfil : (ds ++ ['.', d1, d2]).filter (· != '.') = ds ++ [d1, d2] := by
    rw [List.filter_append,
      List.filter_eq_self.mpr (fun c hc => digit_bne_dot (hds c hc))]
    simp [List.filter_cons, digit_bne_dot h1, digit_bne_dot h2]
  unfold moneyCents
  rw [hfil]
  have hall : ∀ c ∈ ds ++ [d1, d2], isDigitChar c = true := by
    intro c hc
    rcases List.mem_append.mp hc with hc | hc
    · exact hds c hc
    · simp only [List.mem_cons, List.mem_singleton, List.not_mem_nil, or_false] at hc
      rcases hc with rfl | rfl
      · exact h1
      · exact h2
  have hlt := digitsToNat_lt _ hall
  have hlen : (ds ++ [d1, d2]).length = (ds ++ ['.', d1, d2]).length - 1 := by
    simp [List.length_append]
  rw [hlen] at hlt
  exact hlt

/-- Bound for one R5 item term on a validated, length-bounded price:
    non-negative and at most `2 * 10 ^ 12 + 2` points. -/
theorem r5ItemPoints_bound {price : List Char} (hmon : matchesMoney price = true)
    (hlen : price.length ≤ 15) :
    0 ≤ r5ItemPoints price ∧ r5ItemPoints price ≤ 2 * 10 ^ 12 + 2 := by
  have hparse := goParseFloat_money hmon
  unfold r5ItemPoints
  rw [hparse, convDecimal_money_fst]
  have hclt : moneyCents price < 10 ^ 14 := by
    have h1 := moneyCents_lt hmon
    have h2 : (10 : ℕ) ^ (price.length - 1) ≤ 10 ^ 14 :=
      Nat.pow_le_pow_right (by norm_num) (by omega)
    omega
  by_cases hz : moneyCents price = 0
  · rw [hz]
    constructor <;> decide
  · have hc1 : 0 < moneyCents price := Nat.pos_of_ne_zero hz
    have hcq : (moneyCents price : ℚ) < 10 ^ 14 := by exact_mod_cast hclt
    have hkey1 : 2 * ((moneyCents price : ℚ) / ((100 : ℕ) : ℚ) * (2 : ℚ) ^ (0 : ℤ))
        ≤ 2 * 10 ^ 12 := by
      rw [zpow_zero, mul_one]
      have hdiv : (moneyCents price : ℚ) / ((100 : ℕ) : ℚ) ≤ 10 ^ 12 := by
        rw [div_le_iff₀ (by norm_num : (0 : ℚ) < ((100 : ℕ) : ℚ))]
        push_cast
        linarith
      linarith
    have hmax1 : (2 * 10 ^ 12 : ℚ) ≤ maxF64Q :=
      le_trans (by norm_num) two_pow62_le_maxF64Q
    obtain ⟨m, e, heq, hm0, hv⟩ :=
      flSigned_pos_spec hc1 (by norm_num : (0 : ℕ) < 100) 0 hkey1 hmax1
    rw [heq]
    have hf02 : float02 = .finite 7205759403792794 (-55) := by decide
    rw [hf02]
    have h02m : (0 : ℤ) ≤ 7205759403792794 := by norm_num
    have h02v : dyVal 7205759403792794 (-55) ≤ 1 / 4 := by
      unfold dyVal
      rw [show ((-55 : ℤ)) = -((55 : ℕ) : ℤ) from by norm_num, zpow_neg, zpow_natCast,
        ← div_eq_mul_inv, div_le_iff₀ (by positivity)]
      norm_num
    have hmax2 : 2 * ((2 * 10 ^ 12 : ℚ) * (1 / 4)) ≤ maxF64Q :=
      le_trans (by norm_num) two_pow62_le_maxF64Q
    obtain ⟨m2, e2, heq2, hm2, hv2⟩ := goMul_nonneg_le hm0 h02m hv h02v (by norm_num) hmax2
    rw [heq2]
    have hv2' : dyVal m2 e2 ≤ 10 ^ 12 := by
      calc dyVal m2 e2 ≤ 2 * ((2 * 10 ^ 12 : ℚ) * (1 / 4)) := hv2
        _ = 10 ^ 12 := by norm_num
    have hres := goCeil_intOf_bound hm2 hv2' (by positivity)
      (by norm_num : 2 * ((10 ^ 12 : ℚ) + 1) ≤ (2 : ℚ) ^ (62 : ℕ))
    refine ⟨hres.1, ?_⟩
    have hcast : ((2 * 10 ^ 12 + 2 : ℤ) : ℚ) = 2 * ((10 ^ 12 : ℚ) + 1) := by
      push_cast
      ring
    exact_mod_cast le_trans hres.2 (le_of_eq hcast.symm)

theorem validateReceipt_items_none {r : Receipt} (h : validateReceipt r = none) :
    validateItems r.items = none := by
  unfold validateReceipt at h
  split_ifs at h <;> simp_all

theorem validateItem_money {i : Item} (h : validateItem i = none) :
    matchesMoney i.price = true := by
  unfold validateItem at h
  split_ifs at h <;> simp_all

theorem validateItems_money : ∀ items : List Item, validateItems items = none →
    ∀ i ∈ items, matchesMoney i.price = true := by
  intro items
  induction items with
  | nil =>
      intro _ i hi
      simp at hi
  | cons j rest ih =>
      intro h i hi
      simp only [validateItems] at h
      rcases hj : validateItem j with _ | msg
      · rw [hj] at h
        rcases List.mem_cons.mp hi with rfl | hi2
        · exact validateItem_money hj
        · exact ih h i hi2
      · rw [hj] at h
        simp at h

theorem wrap_step_bound (k : ℤ) {x Bx : ℤ} (h0 : 0 ≤ x) (hx : x ≤ Bx) (hk : 0 ≤ k)
    (hB : Bx + k < 2 ^ 63) : 0 ≤ wrap64 (x + k) ∧ wrap64 (x + k) ≤ Bx + k := by
  rw [wrap64_eq_self (by omega) (by omega)]
  omega

theorem ite_wrap_bound (c : Prop) [Decidable c] (k : ℤ) {p Bp : ℤ}
    (h0 : 0 ≤ p) (hple : p ≤ Bp) (hk : 0 ≤ k) (hB : Bp + k < 2 ^ 63) :
    0 ≤ (if c then wrap64 (p + k) else p) ∧ (if c then wrap64 (p + k) else p) ≤ Bp + k := by
  split
  · rw [wrap64_eq_self (by omega) (by omega)]
    omega
  · omega

theorem foldl_r5_acc_bound (T : ℤ) (hT : 0 ≤ T) :
    ∀ items : List Item,
      (∀ i ∈ items, 0 ≤ r5ItemPoints i.price ∧ r5ItemPoints i.price ≤ T) →
      ∀ acc : ℤ, 0 ≤ acc → acc + (items.length : ℤ) * T ≤ 2 ^ 63 - 1 →
      0 ≤ List.foldl
          (fun acc i =>
            if goLen (goTrimSpace i.shortDescription) % 3 = 0 then
              wrap64 (acc + r5ItemPoints i.price)
            else acc) acc items ∧
        List.foldl
          (fun acc i =>
            if goLen (goTrimSpace i.shortDescription) % 3 = 0 then
              wrap64 (acc + r5ItemPoints i.price)
            else acc) acc items ≤ acc + (items.length : ℤ) * T := by
  intro items
  induction items with
  | nil =>
      intro _ acc h0 _
      simp only [List.foldl_nil, List.length_nil]
      constructor
      · exact h0
      · push_cast
        linarith
  | cons j rest ih =>
      intro hall acc h0 hbud
      have hj := hall j (List.mem_cons_self _ _)
      have hrest := fun i hi => hall i (List.mem_cons_of_mem j hi)
      have hlen : (((j :: rest).length : ℕ) : ℤ) = (rest.length : ℤ) + 1 := by
        push_cast [List.length_cons]
        ring
      rw [hlen] at hbud
      have hexp : ((rest.length : ℤ) + 1) * T = (rest.length : ℤ) * T + T := by ring
      rw [hexp] at hbud
      have hmul : 0 ≤ (rest.length : ℤ) * T := mul_nonneg (by positivity) hT
      simp only [List.foldl_cons]
      by_cases hc : goLen (goTrimSpace j.shortDescription) % 3 = 0
      · rw [if_pos hc]
        have hw : wrap64 (acc + r5ItemPoints j.price) = acc + r5ItemPoints j.price := by
          apply wrap64_eq_self
          · have : (0 : ℤ) ≤ -2 ^ 63 + 0 + 2 ^ 63 := by norm_num
            linarith [hj.1]
          · linarith [hj.2]
        rw [hw]
        have hres := ih hrest (acc + r5ItemPoints j.price) (by linarith [hj.1])
          (by linarith [hj.2])
        refine ⟨hres.1, ?_⟩
        rw [hlen, hexp]
        linarith [hres.2, hj.2]
      · rw [if_neg hc]
        have hres := ih hrest acc h0 (by linarith)
        refine ⟨hres.1, ?_⟩
        rw [hlen, hexp]
        linarith [hres.2]

theorem lookupStore_runSubmits_none (ops : List (String × Receipt)) :
    ∀ (st : Store) (id : String),
      (lookupStore (runSubmits st ops) id = none ↔
        id ∉ issuedIds ops ∧ lookupStore st id = none) := by
  induction ops with
  | nil =>
      intro st id
      simp [runSubmits, issuedIds]
  | cons p rest ih =>
      intro st id
      obtain ⟨i, r⟩ := p
      rcases hv : validateReceipt r with _ | msg
      · have hrun : runSubmits st ((i, r) :: rest)
            = runSubmits ((i, calculatePoints r) :: st) rest := by
          simp [runSubmits, processReceipt, hv]
        rw [hrun, ih]
        simp only [issuedIds, List.filter_cons, hv, Option.isNone_none, List.map_cons,
          List.mem_cons, lookupStore]
        by_cases hid : i = id
        · subst hid
          simp
        · simp only [if_neg hid, if_true]
          constructor
          · rintro ⟨hni, hl⟩
            refine ⟨?_, hl⟩
            simp only [List.map_cons, List.mem_cons]
            rintro (h | h)
            · exact hid h.symm
            · exact hni h
          · rintro ⟨hni, hl⟩
            simp only [List.map_cons, List.mem_cons] at hni
            push_neg at hni
            exact ⟨hni.2, hl⟩
      · have hrun : runSubmits st ((i, r) :: rest) = runSubmits st rest := by
          simp [runSubmits, processReceipt, hv]
        rw [hrun, ih]
        simp [issuedIds, List.filter_cons, hv]

theorem lookupStore_preserved (ops : List (String × Receipt)) :
    ∀ (st : Store) (x : String), x ∉ ops.map Prod.fst →
      lookupStore (runSubmits st ops) x = lookupStore st x := by
  induction ops with
  | nil => intro st x _; rfl
  | cons p rest ih =>
      intro st x hx
      obtain ⟨i, r⟩ := p
      simp only [List.map_cons, List.mem_cons] at hx
      push_neg at hx
      rcases hv : validateReceipt r with _ | msg
      · have hrun : runSubmits st ((i, r) :: rest)
            = runSubmits ((i, calculatePoints r) :: st) rest := by
          simp [runSubmits, processReceipt, hv]
        rw [hrun, ih _ x hx.2]
        have hne : i ≠ x := fun h => hx.1 h.symm
        simp [lookupStore, hne]
      · have hrun : runSubmits st ((i, r) :: rest) = runSubmits st rest := by
          simp [runSubmits, processReceipt, hv]
        rw [hrun, ih _ x hx.2]

/-! ## Claim C1 -/

/-- **C1** (code bug): the validated total `"2.01"` is *not* an integer
    multiple of 0.25 (its exact cent value is 201, and 201 % 25 = 1), yet
    the scoring engine awards rule R3's 25 points for it: the code
    truncates `f * 100` (= 200.999…94 in float64) to 200 instead of
    rounding to the nearest integer as the specification requires, and
    200 % 25 = 0. -/
theorem c1_r3_truncation_bug :
    matchesMoney "2.01".data = true ∧
    moneyCents "2.01".data = 201 ∧ (201 : ℕ) % 25 = 1 ∧
    isTotalMultipleOf25Cents "2.01".data = true := by decide

/-! ## Claim C2 -/

/-- **C2**: the worked example — retailer Target, Mountain Dew 12PK at
    6.49 and Emils Cheese Pizza at 12.25, total 18.74, bought 2022-01-01
    at 13:01 — passes validation and scores exactly 20 points
    (R1 = 6, R2 = 0, R3 = 0, R4 = 5, R5 = 3, R6 = 6, R7 = 0). -/
theorem c2_target_receipt_scores_20 :
    validateReceipt targetReceipt = none ∧ calculatePoints targetReceipt = 20 := by decide

/-! ## Claim C3 -/

/-- **C3** (counterexample): a receipt whose single item has the
    syntactically valid price `2 * 10 ^ 308` dollars (309 digits, two
    decimals) passes validation, but scores *negative* points: the price
    overflows float64 to `+Inf` (`ParseFloat`'s range error is discarded
    in rule R5), `int(math.Ceil(+Inf * 0.2))` is `-2 ^ 63` on gc/amd64,
    so the claim that every validated receipt scores ≥ 0 — "including
    receipts with arbitrarily large validated prices" — fails. -/
theorem c3_huge_price_negative_score :
    validateReceipt hugePriceReceipt = none ∧ calculatePoints hugePriceReceipt < 0 := by
  decide

/-- **C3** (amended): a validated receipt scores a non-negative integer
    whenever its sizes keep every intermediate value inside the
    float64/int64-safe range: at most `10 ^ 4` items, a retailer of at
    most `10 ^ 4` characters, and price strings of at most 15 characters
    (the counterexample shows the bound on prices cannot be dropped). -/
theorem c3_score_nonneg_of_bounded (r : Receipt)
    (hv : validateReceipt r = none)
    (hn : r.items.length ≤ 10 ^ 4)
    (hr : r.retailer.length ≤ 10 ^ 4)
    (hp : ∀ i ∈ r.items, i.price.length ≤ 15) :
    0 ≤ calculatePoints r := by
  have hterm : ∀ i ∈ r.items,
      0 ≤ r5ItemPoints i.price ∧ r5ItemPoints i.price ≤ 2 * 10 ^ 12 + 2 :=
    fun i hi => r5ItemPoints_bound
      (validateItems_money r.items (validateReceipt_items_none hv) i hi) (hp i hi)
  have hcount : (countAlphanumeric r.retailer : ℤ) ≤ 10 ^ 4 := by
    have h1 : countAlphanumeric r.retailer ≤ r.retailer.length := List.length_filter_le _ _
    exact_mod_cast le_trans h1 hr
  have hpairs : ((r.items.length / 2 * 5 : ℕ) : ℤ) ≤ 25000 := by
    have h2 : r.items.length / 2 * 5 ≤ 25000 := by omega
    exact_mod_cast h2
  have hlenT : ((r.items.length : ℕ) : ℤ) ≤ 10 ^ 4 := by exact_mod_cast hn
  simp only [calculatePoints]
  obtain ⟨h01, h11⟩ := wrap_step_bound ((countAlphanumeric r.retailer : ℤ))
    (le_refl (0 : ℤ)) (le_refl (0 : ℤ)) (Int.natCast_nonneg _) (by omega)
  have h11' : wrap64 (0 + (countAlphanumeric r.retailer : ℤ)) ≤ 10 ^ 4 := by omega
  obtain ⟨h02, h12⟩ := ite_wrap_bound (goHasSuffix r.total ".00".data = true) 50
    h01 h11' (by norm_num) (by norm_num)
  obtain ⟨h03, h13⟩ := ite_wrap_bound (isTotalMultipleOf25Cents r.total = true) 25
    h02 h12 (by norm_num) (by norm_num)
  obtain ⟨h04, h14⟩ := wrap_step_bound (((r.items.length / 2 * 5 : ℕ) : ℤ))
    h03 h13 (Int.natCast_nonneg _) (by omega)
  obtain ⟨h05, h15⟩ := foldl_r5_acc_bound (2 * 10 ^ 12 + 2) (by norm_num) r.items hterm
    _ h04 (by omega)
  have h15' : List.foldl
      (fun acc i =>
        if goLen (goTrimSpace i.shortDescription) % 3 = 0 then
          wrap64 (acc + r5ItemPoints i.price)
        else acc)
      (wrap64 ((if isTotalMultipleOf25Cents r.total = true then
          wrap64 ((if goHasSuffix r.total ".00".data = true then
              wrap64 (wrap64 (0 + (countAlphanumeric r.retailer : ℤ)) + 50)
            else wrap64 (0 + (countAlphanumeric r.retailer : ℤ))) + 25)
        else
          if goHasSuffix r.total ".00".data = true then
            wrap64 (wrap64 (0 + (countAlphanumeric r.retailer : ℤ)) + 50)
          else wrap64 (0 + (countAlphanumeric r.retailer : ℤ)))
        + ((r.items.length / 2 * 5 : ℕ) : ℤ))) r.items
      ≤ 35075 + 10 ^ 4 * (2 * 10 ^ 12 + 2) := by omega
  obtain ⟨h06, h16⟩ := ite_wrap_bound (isPurchaseDateOdd r.purchaseDate = true) 6
    h05 h15' (by norm_num) (by norm_num)
  obtain ⟨h07, h17⟩ := ite_wrap_bound (isPurchaseTimeBetween2And4PM r.purchaseTime = true) 10
    h06 h16 (by norm_num) (by norm_num)
  exact h07

/-- Witness for the amended C3 at the worked example. -/
theorem c3_score_nonneg_witness : 0 ≤ calculatePoints targetReceipt :=
  c3_score_nonneg_of_bounded targetReceipt (by decide) (by decide) (by decide) (by decide)

/-! ## Claim C4 -/

/-- **C4**: over any run of submissions started from the empty store,
    `getPoints` returns the `NotFound` error exactly for identifiers not
    issued by a successful submit; every issued identifier yields stored
    points; and `NotFound` is the only error the lookup path produces. -/
theorem c4_getPoints_notFound_iff (ops : List (String × Receipt)) (id : String) :
    (getPoints (runSubmits [] ops) id = .error notFoundMsg ↔ id ∉ issuedIds ops) ∧
    (id ∈ issuedIds ops → ∃ p, getPoints (runSubmits [] ops) id = .ok p) ∧
    (∀ e, getPoints (runSubmits [] ops) id = .error e → e = notFoundMsg) := by
  have h := lookupStore_runSubmits_none ops [] id
  simp only [lookupStore, and_true] at h
  rcases hl : lookupStore (runSubmits [] ops) id with _ | p
  · have hni : id ∉ issuedIds ops := h.mp hl
    refine ⟨?_, ?_, ?_⟩
    · simp [getPoints, hl, hni]
    · intro hmem; exact absurd hmem hni
    · intro e he
      simp only [getPoints, hl] at he
      exact ((Except.error.injEq _ _).mp he).symm
  · have hmem : id ∈ issuedIds ops := by
      by_contra hni
      have := h.mpr hni
      rw [hl] at this
      exact Option.noConfusion this
    refine ⟨?_, ?_, ?_⟩
    · simp [getPoints, hl, hmem]
    · intro _; exact ⟨p, by simp [getPoints, hl]⟩
    · intro e he
      simp [getPoints, hl] at he

/-- Witness for C4 at a concrete run: the id `"a"` issued for the Target
    receipt is found, the never-issued `"b"` gets the `NotFound` error. -/
theorem c4_getPoints_witness :
    (∃ p, getPoints (runSubmits [] [("a", targetReceipt)]) "a" = .ok p) ∧
    getPoints (runSubmits [] [("a", targetReceipt)]) "b" = .error notFoundMsg :=
  ⟨(c4_getPoints_notFound_iff [("a", targetReceipt)] "a").2.1 (by decide),
   (c4_getPoints_notFound_iff [("a", targetReceipt)] "b").1.mpr (by decide)⟩

/-! ## Claim C8 -/

/-- **C8**: when validation fails, the orchestrator returns the
    validation error with its reason and the store is exactly the one it
    started with — no entry is inserted and no identifier is issued. -/
theorem c8_reject_leaves_store (r : Receipt) (msg : String) (st : Store) (id : String)
    (h : validateReceipt r = some msg) :
    processReceipt st id r = (.error msg, st) := by
  simp [processReceipt, h]

/-- Witness for C8: a receipt with a missing retailer is rejected with
    its reason and the (empty) store is unchanged. -/
theorem c8_reject_witness :
    processReceipt [] "id-1" { targetReceipt with retailer := [] }
      = (.error "retailer is required", []) :=
  c8_reject_leaves_store _ "retailer is required" [] "id-1" (by decide)

/-! ## Claim C9 -/

/-- **C9**: a stored `(identifier, points)` entry is immutable — after a
    successful submit stored the points under `x`, any later submissions
    under other (fresh, never-reused) identifiers leave the lookup of `x`
    returning exactly the stored points, so any two later `getPoints x`
    calls agree. -/
theorem c9_stored_points_immutable (st : Store) (ops : List (String × Receipt))
    (x : String) (r : Receipt)
    (hv : validateReceipt r = none) (hfresh : x ∉ ops.map Prod.fst) :
    getPoints (runSubmits (processReceipt st x r).2 ops) x = .ok (calculatePoints r) := by
  have h1 : (processReceipt st x r).2 = (x, calculatePoints r) :: st := by
    simp [processReceipt, hv]
  rw [h1]
  unfold getPoints
  rw [lookupStore_preserved ops _ x hfresh]
  simp [lookupStore]

/-- Witness for C9: the points stored under `"a"` survive a later
    submission under `"b"`. -/
theorem c9_stored_points_witness :
    getPoints (runSubmits (processReceipt [] "a" targetReceipt).2
      [("b", targetReceipt)]) "a" = .ok (calculatePoints targetReceipt) :=
  c9_stored_points_immutable [] [("b", targetReceipt)] "a" targetReceipt
    (by decide) (by decide)

/-! ## Claim C6 -/

theorem goParseTime_bounds {l : List Char} {h m : ℕ}
    (hp : goParseTime l = some (h, m)) : h < 24 ∧ m < 60 := by
  unfold goParseTime at hp
  split at hp
  · simp at hp
  · split at hp
    · split at hp
      · split at hp
        · simp at hp
        · split at hp
          · rename_i hcond
            simp only [Option.some.injEq, Prod.mk.injEq] at hp
            obtain ⟨rfl, rfl⟩ := hp
            exact ⟨hcond.2.1, hcond.2.2⟩
          · simp at hp
      · simp at hp
    · simp at hp

/-- **C6**: rule R7's 10 points are awarded exactly when the validated
    purchase time lies in the half-open window [14:00, 16:00) — measured
    in minutes since midnight — and the boundary cases behave as claimed:
    14:00 and 15:59 score, 16:00 and 13:59 do not. -/
theorem c6_rule7_window :
    (∀ (l : List Char) (h m : ℕ), goParseTime l = some (h, m) →
      (isPurchaseTimeBetween2And4PM l = true ↔
        14 * 60 ≤ 60 * h + m ∧ 60 * h + m < 16 * 60)) ∧
    isPurchaseTimeBetween2And4PM "14:00".data = true ∧
    isPurchaseTimeBetween2And4PM "15:59".data = true ∧
    isPurchaseTimeBetween2And4PM "16:00".data = false ∧
    isPurchaseTimeBetween2And4PM "13:59".data = false := by
  refine ⟨?_, by decide, by decide, by decide, by decide⟩
  intro l h m hp
  have hb := goParseTime_bounds hp
  simp only [isPurchaseTimeBetween2And4PM, hp, decide_eq_true_eq]
  omega

/-- Witness for C6: 14:30 lies in the window and scores the rule. -/
theorem c6_rule7_witness : isPurchaseTimeBetween2And4PM "14:30".data = true :=
  (c6_rule7_window.1 "14:30".data 14 30 (by decide)).mpr (by decide)

/-! ## Claim C7 -/

theorem validateItems_eq_firstFailure (items : List Item) :
    validateItems items = firstFailure (items.map itemChecks).flatten := by
  induction items with
  | nil => rfl
  | cons i rest ih =>
      simp only [List.map_cons, List.flatten_cons]
      by_cases h1 : i.shortDescription.isEmpty = true <;>
      by_cases h2 : i.price.isEmpty = true <;>
      by_cases h3 : matchesDesc i.shortDescription = true <;>
      by_cases h4 : matchesMoney i.price = true <;>
        simp [validateItems, validateItem, itemChecks, firstFailure, h1, h2, h3, h4, ih]

/-- **C7**: the validator equals the short-circuiting scan of the
    specification's ordered check list — the five presence checks first
    (retailer, purchaseDate, purchaseTime, non-empty items, total), then
    the retailer / date / time / total format checks, then each item in
    order with its item-specific reasons; the first failing check's
    reason is returned. -/
theorem c7_validator_order (r : Receipt) :
    validateReceipt r = firstFailure (receiptChecks r) := by
  unfold validateReceipt receiptChecks
  simp only [List.cons_append, List.nil_append, firstFailure, validateItems_eq_firstFailure]
  rfl

/-! ## Claim C5 -/

theorem isSome_ite_some_none (P : Prop) [Decidable P] (x : ℕ × ℕ) :
    (if P then some x else none).isSome = decide P := by
  split <;> simp_all

/-- **C5** (amended): the time-format check accepts exactly the strings
    of shape `H:MM` or `HH:MM` (one- or two-digit hour, exactly
    two-digit minute) with hour ≤ 23 and minute ≤ 59. -/
theorem c5_time_accept_iff_shape (l : List Char) :
    (goParseTime l).isSome = goTimeShape l := by
  rcases l with _ | ⟨c1, _ | ⟨c2, _ | ⟨c3, _ | ⟨c4, _ | ⟨c5, _ | ⟨c6, rest⟩⟩⟩⟩⟩⟩
  · rfl
  · by_cases h1 : isDigitChar c1 = true <;>
      simp_all [goParseTime, getnum, goTimeShape]
  · by_cases h1 : isDigitChar c1 = true <;>
    by_cases h2 : isDigitChar c2 = true <;>
    by_cases e2 : c2 = ':' <;>
      simp_all [goParseTime, getnum, goTimeShape,
        show isDigitChar ':' = false from rfl]
  · by_cases h1 : isDigitChar c1 = true <;>
    by_cases h2 : isDigitChar c2 = true <;>
    by_cases h3 : isDigitChar c3 = true <;>
    by_cases e2 : c2 = ':' <;>
    by_cases e3 : c3 = ':' <;>
      simp_all [goParseTime, getnum, goTimeShape,
        show isDigitChar ':' = false from rfl]
  · by_cases h1 : isDigitChar c1 = true <;>
    by_cases h2 : isDigitChar c2 = true <;>
    by_cases h3 : isDigitChar c3 = true <;>
    by_cases h4 : isDigitChar c4 = true <;>
    by_cases e2 : c2 = ':' <;>
    by_cases e3 : c3 = ':' <;>
      simp_all [goParseTime, getnum, goTimeShape, isSome_ite_some_none,
        digitVal_lt_24, show isDigitChar ':' = false from rfl]
  · by_cases h1 : isDigitChar c1 = true <;>
    by_cases h2 : isDigitChar c2 = true <;>
    by_cases h3 : isDigitChar c3 = true <;>
    by_cases h4 : isDigitChar c4 = true <;>
    by_cases h5 : isDigitChar c5 = true <;>
    by_cases e2 : c2 = ':' <;>
    by_cases e3 : c3 = ':' <;>
      simp_all [goParseTime, getnum, goTimeShape, isSome_ite_some_none,
        digitVal_lt_24, show isDigitChar ':' = false from rfl]
  · by_cases h1 : isDigitChar c1 = true <;>
    by_cases h2 : isDigitChar c2 = true <;>
    by_cases h3 : isDigitChar c3 = true <;>
    by_cases h4 : isDigitChar c4 = true <;>
    by_cases h5 : isDigitChar c5 = true <;>
    by_cases e2 : c2 = ':' <;>
    by_cases e3 : c3 = ':' <;>
      simp_all [goParseTime, getnum, goTimeShape, isSome_ite_some_none,
        digitVal_lt_24, show isDigitChar ':' = false from rfl]

/-! ## Claim C5 (counterexample part) -/

/-- **C5** (counterexample): `"9:30"` is not of the two-digit-hour,
    colon, two-digit-minute shape, yet the validator accepts a receipt
    carrying it as `purchaseTime` — Go's `"15"` layout verb parses a
    one- or two-digit hour. -/
theorem c5_single_digit_hour_accepted :
    strictHHMM "9:30".data = false ∧
    validateReceipt (receiptWithTime "9:30".data) = none := by decide

/-! ## Claim C10 -/

theorem convDecimal_snd_ne_malformed (neg : Bool) (mant : ℕ) (e10 : ℤ) :
    (convDecimal neg mant e10).2 ≠ .malformed := by
  simp only [convDecimal]
  split <;> simp

set_option maxHeartbeats 2000000 in
theorem goParseFloat_malformed_eq (l : List Char) :
    (goParseFloat l).2 = .malformed → goParseFloat l = (.finite 0 0, .malformed) := by
  simp only [goParseFloat]
  repeat' split
  all_goals intro h
  all_goals
    first
    | (simp at h; done)
    | exact absurd h (convDecimal_snd_ne_malformed _ _ _)
    | rfl

/-- **C10** (amended): the scoring engine is total and absorbs parse
    failures — a total whose `ParseFloat` errors (syntax or range) makes
    R3 contribute 0, an unparseable date makes R6 contribute 0, an
    unparseable time makes R7 contribute 0, and a *syntactically*
    unparseable item price (`ParseFloat` returns value 0) makes the R5
    term 0.  (A syntactically valid but out-of-range price is the one
    exception: it is treated as `±Inf`, not 0 — see the counterexample.) -/
theorem c10_parse_failures_absorbed :
    (∀ t, (goParseFloat t).2 ≠ .ok → isTotalMultipleOf25Cents t = false) ∧
    (∀ d, goParseDate d = none → isPurchaseDateOdd d = false) ∧
    (∀ t, goParseTime t = none → isPurchaseTimeBetween2And4PM t = false) ∧
    (∀ p, (goParseFloat p).2 = .malformed → r5ItemPoints p = 0) := by
  refine ⟨?_, ?_, ?_, ?_⟩
  · intro t h
    rcases hp : goParseFloat t with ⟨f, err⟩
    rw [hp] at h
    cases err
    · exact absurd rfl h
    · simp [isTotalMultipleOf25Cents, hp]
    · simp [isTotalMultipleOf25Cents, hp]
  · intro d h
    simp [isPurchaseDateOdd, h]
  · intro t h
    simp [isPurchaseTimeBetween2And4PM, h]
  · intro p h
    have heq := goParseFloat_malformed_eq p h
    unfold r5ItemPoints
    rw [heq]
    decide

/-- Witness for C10: concrete malformed fields all contribute zero. -/
theorem c10_parse_failures_witness :
    isTotalMultipleOf25Cents "abc".data = false ∧
    isPurchaseDateOdd "2022-13-01".data = false ∧
    isPurchaseTimeBetween2And4PM "25:00".data = false ∧
    r5ItemPoints "x.y".data = 0 :=
  ⟨c10_parse_failures_absorbed.1 _ (by decide),
   c10_parse_failures_absorbed.2.1 _ (by decide),
   c10_parse_failures_absorbed.2.2.1 _ (by decide),
   c10_parse_failures_absorbed.2.2.2 _ (by decide)⟩

/-! ## Claim C10 (counterexample part) -/

/-- **C10** (counterexample): an overflowing item price (`2 * 10 ^ 308`
    dollars) makes `ParseFloat` fail with a range error, but rule R5 does
    *not* treat it as 0: the discarded-error value is `+Inf` and the item
    contributes `-2 ^ 63` points (gc/amd64). -/
theorem c10_overflow_price_not_absorbed :
    (goParseFloat ('2' :: (List.replicate 308 '0' ++ ".00".data))).2 ≠ .ok ∧
    r5ItemPoints ('2' :: (List.replicate 308 '0' ++ ".00".data)) = -(2 ^ 63) := by
  decide

end ReceiptProc
